import Mathlib

/-!
A verification development for the ShuckleCodes blog application.

It embeds, as executable Lean definitions, the parts of the code that the
specification's testable properties talk about:

* the client-side post organizer of `client/src/components/PostList.tsx`
  (`buildDateTree`, `buildSeriesGroups`, the tag index and the primary
  listing derivation);
* the schema-migration runner of `server/src/migrations/runner.ts`;
* the post CRUD route handlers (`POST /api/posts`, `PUT /api/posts/:id`).

JavaScript numbers are modelled as `Nat`/`Int`, timestamps as milliseconds
since the Unix epoch, fallible database actions as `Option`-valued state
transformers, and JavaScript's stable `Array.prototype.sort` as
`List.insertionSort` (any stable sort with respect to a total preorder
comparator produces the same list).
-/

namespace Shuckle

/-- A post record as the client receives it from `GET /api/posts`
(`client/src/services/api.ts`).  `created_at` is the parsed timestamp in
milliseconds since the epoch; `none` models an absent timestamp.
`series_order` is the optional numeric ordering value.
-/
structure Post where
  id : Nat
  title : String
  slug : String
  content : String
  excerpt : Option String
  category : Option String
  tags : Option (List String)
  series : Option String
  series_order : Option Int
  published : Bool
  created_at : Option Nat
  updated_at : Option Nat
deriving DecidableEq, Repr

/-- Models `new Date(post.created_at || 0).getTime()`: a missing timestamp is the epoch. -/
def postTime (p : Post) : Nat :=
  p.created_at.getD 0

def msPerDay : Nat := 86400000

/-- Civil calendar from a day count since 1970-01-01 (what `Date.getFullYear` /
`Date.getMonth` compute, taken in UTC): returns `(year, month)` with the
month 1-based.  Standard era/year-of-era decomposition of the Gregorian
calendar.
-/
def civilFromDays (days : Nat) : Nat × Nat :=
  let z := days + 719468
  let era := z / 146097
  let doe := z % 146097
  let yoe := (doe - doe / 1460 + doe / 36524 - doe / 146097) / 365
  let y := yoe + era * 400
  let doy := doe - (365 * yoe + yoe / 4 - yoe / 100)
  let mp := (5 * doy + 2) / 153
  let m := if mp < 10 then mp + 3 else mp - 9
  (if m ≤ 2 then y + 1 else y, m)

/-- Models `new Date(post.created_at || 0).getFullYear()` (UTC). -/
def postYear (p : Post) : Nat :=
  (civilFromDays (postTime p / msPerDay)).1

/-- Models `new Date(post.created_at || 0).getMonth()` (UTC, 0-based like JavaScript). -/
def postMonth (p : Post) : Nat :=
  (civilFromDays (postTime p / msPerDay)).2 - 1

/-- The `MONTH_NAMES` constant of `PostList.tsx`. -/
def monthNames : List String :=
  ["January", "February", "March", "April", "May", "June",
   "July", "August", "September", "October", "November", "December"]

/-- One step of building an insertion-ordered group map (a JavaScript `Map`
keyed by `k a`): append `a` to its bucket if the key is present, otherwise
append a fresh bucket at the end (`Map` iteration follows insertion order).
-/
def addToGroups {α κ : Type} [DecidableEq κ] (k : α → κ) (a : α) :
    List (κ × List α) → List (κ × List α)
  | [] => [(k a, [a])]
  | (key, items) :: rest =>
    if k a = key then (key, items ++ [a]) :: rest
    else (key, items) :: addToGroups k a rest

/-- Group a list by a key, buckets and keys both in first-occurrence order —
the semantics of the `Map`-building `forEach` loops in `buildDateTree` and
`buildSeriesGroups`.
-/
def groupByKey {α κ : Type} [DecidableEq κ] (k : α → κ) (l : List α) :
    List (κ × List α) :=
  l.foldl (fun gs a => addToGroups k a gs) []

/-- Comparator `(a, b) => dateB - dateA`: sort by `created_at` descending. -/
def timeDescRel : Post → Post → Prop := fun a b => postTime b ≤ postTime a

instance : DecidableRel timeDescRel := fun a b =>
  inferInstanceAs (Decidable (postTime b ≤ postTime a))

instance : IsTotal Post timeDescRel :=
  ⟨fun a b => Nat.le_total (postTime b) (postTime a)⟩

instance : IsTrans Post timeDescRel :=
  ⟨fun _ _ _ hab hbc => Nat.le_trans hbc hab⟩

/-- Comparator `(a, b) => (a.series_order || 0) - (b.series_order || 0)`. -/
def seriesOrderVal (p : Post) : Int :=
  p.series_order.getD 0

def orderAscRel : Post → Post → Prop := fun a b => seriesOrderVal a ≤ seriesOrderVal b

instance : DecidableRel orderAscRel := fun a b =>
  inferInstanceAs (Decidable (seriesOrderVal a ≤ seriesOrderVal b))

instance : IsTotal Post orderAscRel :=
  ⟨fun a b => Int.le_total (seriesOrderVal a) (seriesOrderVal b)⟩

instance : IsTrans Post orderAscRel :=
  ⟨fun _ _ _ hab hbc => Int.le_trans hab hbc⟩

/-- A node of the date tree: one month bucket. -/
structure DateTreeMonth where
  month : Nat
  monthName : String
  posts : List Post
deriving DecidableEq, Repr

/-- A node of the date tree: one year with its month buckets. -/
structure DateTreeYear where
  year : Nat
  months : List DateTreeMonth
deriving DecidableEq, Repr

def monthDescRel : DateTreeMonth → DateTreeMonth → Prop := fun a b => b.month ≤ a.month

instance : DecidableRel monthDescRel := fun a b =>
  inferInstanceAs (Decidable (b.month ≤ a.month))

instance : IsTotal DateTreeMonth monthDescRel :=
  ⟨fun a b => Nat.le_total b.month a.month⟩

instance : IsTrans DateTreeMonth monthDescRel :=
  ⟨fun _ _ _ hab hbc => Nat.le_trans hbc hab⟩

def yearDescRel : DateTreeYear → DateTreeYear → Prop := fun a b => b.year ≤ a.year

instance : DecidableRel yearDescRel := fun a b =>
  inferInstanceAs (Decidable (b.year ≤ a.year))

instance : IsTotal DateTreeYear yearDescRel :=
  ⟨fun a b => Nat.le_total b.year a.year⟩

instance : IsTrans DateTreeYear yearDescRel :=
  ⟨fun _ _ _ hab hbc => Nat.le_trans hbc hab⟩

/-- Models `buildDateTree` of `PostList.tsx`: group posts by creation year, within
each year by creation month, sort each month bucket by `created_at`
descending, month buckets by month number descending, years descending.
The per-month and per-year callbacks are named `monthNode` and `yearNode`.
-/
def monthNode (mg : Nat × List Post) : DateTreeMonth :=
  DateTreeMonth.mk mg.1 (monthNames.getD mg.1 "") (List.insertionSort timeDescRel mg.2)

/-- The year callback: its month buckets, each sorted, months descending. -/
def yearNode (yg : Nat × List Post) : DateTreeYear :=
  DateTreeYear.mk yg.1
    (List.insertionSort monthDescRel ((groupByKey postMonth yg.2).map monthNode))

def buildDateTree (posts : List Post) : List DateTreeYear :=
  List.insertionSort yearDescRel ((groupByKey postYear posts).map yearNode)

/-- One series group of the sidebar. -/
structure SeriesGroup where
  name : String
  posts : List Post
deriving DecidableEq, Repr

/-- Models `if (post.series)`: the series string must be present and non-empty (truthy). -/
def hasSeries (p : Post) : Bool :=
  match p.series with
  | some s => s ≠ ""
  | none => false

def seriesName (p : Post) : String :=
  p.series.getD ""

/--
Comparator `(a, b) => a.name.localeCompare(b.name)`, modelled as the
lexicographic order on the name's character list.
-/
def nameAscRel : SeriesGroup → SeriesGroup → Prop := fun a b => a.name.data ≤ b.name.data

instance : DecidableRel nameAscRel := fun a b =>
  inferInstanceAs (Decidable (a.name.data ≤ b.name.data))

instance : IsTotal SeriesGroup nameAscRel :=
  ⟨fun a b => le_total a.name.data b.name.data⟩

instance : IsTrans SeriesGroup nameAscRel :=
  ⟨fun _ _ _ hab hbc => le_trans hab hbc⟩

/-- Models `buildSeriesGroups` of `PostList.tsx`: keep posts with a truthy `series`,
group them by series name, sort each group by `series_order || 0`
ascending, and sort the groups by name (`localeCompare` modelled as the
standard string order).
-/
def seriesGroupNode (g : String × List Post) : SeriesGroup :=
  SeriesGroup.mk g.1 (List.insertionSort orderAscRel g.2)

def buildSeriesGroups (posts : List Post) : List SeriesGroup :=
  List.insertionSort nameAscRel
    ((groupByKey seriesName (posts.filter hasSeries)).map seriesGroupNode)

/-- The tag list of a post as the client reads it: `post.tags || []`. -/
def postTags (p : Post) : List String :=
  p.tags.getD []

/--
The default `Array.prototype.sort()` comparison of strings, modelled as the
lexicographic order on character lists.
-/
def strAscRel : String → String → Prop := fun a b => a.data ≤ b.data

instance : DecidableRel strAscRel := fun a b =>
  inferInstanceAs (Decidable (a.data ≤ b.data))

instance : IsTotal String strAscRel := ⟨fun a b => le_total a.data b.data⟩

instance : IsTrans String strAscRel := ⟨fun _ _ _ hab hbc => le_trans hab hbc⟩

/-- Models `new Set(xs)` iterated in insertion order: first occurrences, in order. -/
def dedupFirst (l : List String) : List String :=
  l.foldl (fun acc x => if x ∈ acc then acc else acc ++ [x]) []

/-- Models `Array.from(new Set(posts.flatMap(post => post.tags || []))).sort()`. -/
def allTags (posts : List Post) : List String :=
  List.insertionSort strAscRel (dedupFirst (posts.flatMap postTags))

/-- The per-tag count displayed next to a tag filter button. -/
def tagCount (posts : List Post) (tag : String) : Nat :=
  (posts.filter (fun p => (postTags p).contains tag)).length

/-- The count displayed on the "All" button: `posts.length`. -/
def allCount (posts : List Post) : Nat :=
  posts.length

/-- The rendered tag filter row: each distinct tag with its displayed count. -/
def tagIndexEntries (posts : List Post) : List (String × Nat) :=
  (allTags posts).map (fun t => (t, tagCount posts t))

/-- Models the `post.tags?.includes(selectedTag)` filtering of the main feed. -/
def filteredPosts (posts : List Post) (selectedTag : Option String) : List Post :=
  match selectedTag with
  | some tag => posts.filter (fun p => (postTags p).contains tag)
  | none => posts

/-- The primary feed: the filtered posts sorted by `created_at` descending. -/
def sortedPosts (posts : List Post) (selectedTag : Option String) : List Post :=
  List.insertionSort timeDescRel (filteredPosts posts selectedTag)

/-- Models `sortedPosts.slice(0, 3)`. -/
def featuredPosts (posts : List Post) (selectedTag : Option String) : List Post :=
  (sortedPosts posts selectedTag).take 3

/-- Models `sortedPosts.slice(3)`. -/
def olderPosts (posts : List Post) (selectedTag : Option String) : List Post :=
  (sortedPosts posts selectedTag).drop 3

/-!
## Migration runner (`server/src/migrations/runner.ts`)

The database is modelled as a schema state `σ` together with the rows of
the `_migrations` tracking table (the recorded names, in insertion order).
A migration's `up` action is a fallible schema transformer: `none` models a
rejected query (the thrown error); the `try`/`catch` of `runMigrations`
rethrows, so an action failure ends the run at once.
-/

/-- A declared `(name, up)` migration pair. -/
structure SchemaMigration (σ : Type) where
  name : String
  up : σ → Option σ

/-- The database as the runner sees it: schema plus recorded migration names. -/
structure DbState (σ : Type) where
  schema : σ
  recorded : List String
deriving DecidableEq, Repr

/-- Models `migrations.filter(m => !executed.has(m.name))`. -/
def pendingOf {σ : Type} (migs : List (SchemaMigration σ)) (db : DbState σ) :
    List (SchemaMigration σ) :=
  migs.filter (fun m => !(decide (m.name ∈ db.recorded)))

/-- The `for (const migration of pending)` loop.  Returns the final database
state, the names whose action was attempted during this run (in order), and
whether the run completed without a failure.  On success of an action its
name is recorded (`markMigrationExecuted`); on failure the loop stops with
the name unrecorded and the error propagates (`ok = false`).
-/
def runPending {σ : Type} :
    List (SchemaMigration σ) → DbState σ → List String →
      DbState σ × List String × Bool
  | [], db, att => (db, att, true)
  | m :: rest, db, att =>
    match m.up db.schema with
    | none => (db, att ++ [m.name], false)
    | some s => runPending rest (DbState.mk s (db.recorded ++ [m.name])) (att ++ [m.name])

/-- Models `runMigrations` of `runner.ts`: read the recorded names, compute the
pending subsequence of the declared list, and run it in declared order.
-/
def runMigrations {σ : Type} (migs : List (SchemaMigration σ)) (db : DbState σ) :
    DbState σ × List String × Bool :=
  runPending (pendingOf migs db) db []

/-!
## Post routes (`server/src/routes/posts.ts`)

The `posts` table is an in-memory list of rows plus the `SERIAL` id
counter; the `UNIQUE` constraint on `slug` (from `init-db.ts`) surfaces as
the `23505` error that the handlers map to a 409 response.  A request body
field that is absent or `null` is `none`.
-/

/-- A row of the `posts` table. -/
structure StoredPost where
  id : Nat
  title : String
  slug : String
  content : String
  excerpt : Option String
  category : Option String
  tags : Option (List String)
  published : Bool
  created_at : Nat
  updated_at : Nat
deriving DecidableEq, Repr

/-- A request body for `POST /api/posts` or `PUT /api/posts/:id`. -/
structure PostBody where
  title : Option String
  slug : Option String
  content : Option String
  excerpt : Option String
  category : Option String
  tags : Option (List String)
  published : Option Bool
deriving DecidableEq, Repr

/-- The `posts` table with its id sequence. -/
structure Store where
  posts : List StoredPost
  nextId : Nat
deriving DecidableEq, Repr

/-- The HTTP responses the post routes produce. -/
inductive ApiResponse where
  | created (p : StoredPost)
  | okPost (p : StoredPost)
  | badRequest
  | notFound
  | conflict
deriving DecidableEq, Repr

/-- JavaScript falsiness of an optional string field: absent or empty. -/
def falsyStr (o : Option String) : Bool :=
  match o with
  | none => true
  | some s => s = ""

/-- Models `router.post('/')`: validate that `title`, `slug`, `content` are truthy
(else 400), then `INSERT`; a duplicate slug violates the unique constraint
(error `23505`, mapped to 409) and leaves the table unchanged, otherwise
the row is created with `published || false` and `CURRENT_TIMESTAMP`
defaults (`now`).
-/
def createPostHandler (store : Store) (now : Nat) (body : PostBody) :
    Store × ApiResponse :=
  if falsyStr body.title || falsyStr body.slug || falsyStr body.content then
    (store, ApiResponse.badRequest)
  else
    let slug := body.slug.getD ""
    if store.posts.any (fun p => p.slug == slug) then
      (store, ApiResponse.conflict)
    else
      let p := StoredPost.mk store.nextId (body.title.getD "") slug
        (body.content.getD "") body.excerpt body.category body.tags
        (body.published.getD false) now now
      (Store.mk (store.posts ++ [p]) (store.nextId + 1), ApiResponse.created p)

/-- The row produced by the `UPDATE ... SET field = COALESCE($n, field)`
statement of `router.put('/:id')`: a `none` body field keeps the stored
value, `updated_at` is set to `CURRENT_TIMESTAMP` (`now`), `id` and
`created_at` are untouched.
-/
def coalescePost (old : StoredPost) (body : PostBody) (now : Nat) : StoredPost :=
  StoredPost.mk old.id (body.title.getD old.title) (body.slug.getD old.slug)
    (body.content.getD old.content) (body.excerpt.orElse (fun _ => old.excerpt))
    (body.category.orElse (fun _ => old.category))
    (body.tags.orElse (fun _ => old.tags))
    (body.published.getD old.published) old.created_at now

/-- Models `router.put('/:id')`: 404 when no row has the id; setting the slug to one
held by a different row violates the unique constraint (`23505` mapped to
409, table unchanged); otherwise the matching row is replaced by the
coalesced row and returned.
-/
def updatePostHandler (store : Store) (now : Nat) (id : Nat) (body : PostBody) :
    Store × ApiResponse :=
  match store.posts.find? (fun p => p.id == id) with
  | none => (store, ApiResponse.notFound)
  | some old =>
    let upd := coalescePost old body now
    if store.posts.any (fun p => p.id != id && p.slug == upd.slug) then
      (store, ApiResponse.conflict)
    else
      (Store.mk (store.posts.map (fun p => if p.id == id then upd else p)) store.nextId,
        ApiResponse.okPost upd)

/-- Holds when `p` appears (strictly) before `q` in the list `l`: some occurrence of `p`
sits at a smaller index than some occurrence of `q`.
-/
def appearsBefore (l : List Post) (p q : Post) : Prop :=
  ∃ i : Fin l.length, ∃ j : Fin l.length, i.1 < j.1 ∧ l.get i = p ∧ l.get j = q

instance (l : List Post) (p q : Post) : Decidable (appearsBefore l p q) :=
  inferInstanceAs (Decidable (∃ i : Fin l.length, ∃ j : Fin l.length,
    i.1 < j.1 ∧ l.get i = p ∧ l.get j = q))

/-! ## Concrete inputs used by counterexamples and witnesses -/

/-- Two posts in series "X", both without a `series_order` (ties at 0). -/
def cexP1 : Post :=
  Post.mk 1 "t1" "s1" "c" none none none (some "X") none true none none

def cexP2 : Post :=
  Post.mk 2 "t2" "s2" "c" none none none (some "X") none true none none

def cexPosts : List Post := [cexP1, cexP2]

/-- The spec's scenario post 1: series "X", order 2, created 2024-01-01. -/
def wSerP1 : Post :=
  Post.mk 1 "t1" "s1" "c" none none none (some "X") (some 2) true
    (some 1704067200000) none

/-- The spec's scenario post 2: series "X", order 1, created 2024-02-01. -/
def wSerP2 : Post :=
  Post.mk 2 "t2" "s2" "c" none none none (some "X") (some 1) true
    (some 1706745600000) none

def wSerPosts : List Post := [wSerP1, wSerP2]

def wTagP1 : Post :=
  Post.mk 1 "t1" "s1" "c" none none (some ["a", "b"]) none none true none none

def wTagP2 : Post :=
  Post.mk 2 "t2" "s2" "c" none none (some ["b"]) none none true none none

def wTagPosts : List Post := [wTagP1, wTagP2]

/-- A migration action that records its own name in the schema log. -/
def upLog (n : String) : List String → Option (List String) :=
  fun s => some (s ++ [n])

def migA : SchemaMigration (List String) := SchemaMigration.mk "A" (upLog "A")

def migB : SchemaMigration (List String) := SchemaMigration.mk "B" (upLog "B")

def migC : SchemaMigration (List String) := SchemaMigration.mk "C" (upLog "C")

/-- A migration "B" whose action always fails. -/
def migBFail : SchemaMigration (List String) :=
  SchemaMigration.mk "B" (fun _ => none)

def dbEmpty : DbState (List String) := DbState.mk [] []

/-- A database on which migration "A" is already recorded. -/
def dbRecA : DbState (List String) := DbState.mk [] ["A"]

def wStored1 : StoredPost :=
  StoredPost.mk 1 "t" "hello" "c" (some "e") (some "cat") (some ["x"]) false 100 100

def wStore : Store := Store.mk [wStored1] 2

/-- A create body reusing the existing slug "hello". -/
def wBodyDup : PostBody :=
  PostBody.mk (some "t2") (some "hello") (some "c2") none none none none

/-- An update body that sets only `title` and `published`. -/
def wBodyPatch : PostBody :=
  PostBody.mk (some "t2") none none none none none (some true)

/-! ## Helper lemmas about insertion-ordered grouping -/

theorem flatMap_snd_addToGroups {α κ : Type} [DecidableEq κ] (k : α → κ) (a : α) :
    ∀ gs : List (κ × List α),
      ((addToGroups k a gs).flatMap Prod.snd).Perm (a :: gs.flatMap Prod.snd)
  | [] => by simp [addToGroups]
  | (key, items) :: rest => by
    by_cases h : k a = key
    · simp only [addToGroups, if_pos h, List.flatMap_cons]
      have he : (items ++ [a]) ++ rest.flatMap Prod.snd
          = items ++ a :: rest.flatMap Prod.snd := by simp
      rw [he]
      exact List.perm_middle
    · simp only [addToGroups, if_neg h, List.flatMap_cons]
      have ih := flatMap_snd_addToGroups k a rest
      exact (ih.append_left items).trans List.perm_middle

theorem flatMap_snd_foldl_addToGroups {α κ : Type} [DecidableEq κ] (k : α → κ) :
    ∀ (l : List α) (gs : List (κ × List α)),
      ((l.foldl (fun gs a => addToGroups k a gs) gs).flatMap Prod.snd).Perm
        (gs.flatMap Prod.snd ++ l)
  | [], gs => by simp
  | a :: l, gs => by
    simp only [List.foldl_cons]
    have ih := flatMap_snd_foldl_addToGroups k l (addToGroups k a gs)
    refine ih.trans ?_
    have h1 := (flatMap_snd_addToGroups k a gs).append_right l
    refine h1.trans ?_
    exact List.perm_middle.symm

theorem flatMap_snd_groupByKey {α κ : Type} [DecidableEq κ] (k : α → κ) (l : List α) :
    ((groupByKey k l).flatMap Prod.snd).Perm l := by
  simpa [groupByKey] using flatMap_snd_foldl_addToGroups k l []

theorem keys_addToGroups {α κ : Type} [DecidableEq κ] (k : α → κ) (a : α) :
    ∀ gs : List (κ × List α),
      (addToGroups k a gs).map Prod.fst =
        if k a ∈ gs.map Prod.fst then gs.map Prod.fst else gs.map Prod.fst ++ [k a]
  | [] => by simp [addToGroups]
  | (key, items) :: rest => by
    by_cases h : k a = key
    · simp [addToGroups, h]
    · have ih := keys_addToGroups k a rest
      by_cases h2 : k a ∈ rest.map Prod.fst
      · simp [addToGroups, h, ih, h2]
      · simp [addToGroups, h, ih, h2]

theorem nodup_keys_foldl_addToGroups {α κ : Type} [DecidableEq κ] (k : α → κ) :
    ∀ (l : List α) (gs : List (κ × List α)), (gs.map Prod.fst).Nodup →
      ((l.foldl (fun gs a => addToGroups k a gs) gs).map Prod.fst).Nodup
  | [], _, h => h
  | a :: l, gs, h => by
    simp only [List.foldl_cons]
    refine nodup_keys_foldl_addToGroups k l _ ?_
    rw [keys_addToGroups]
    by_cases h2 : k a ∈ gs.map Prod.fst
    · simpa [h2] using h
    · simp only [h2, if_neg, ite_false]
      simp [List.nodup_append, h, h2]

theorem nodup_keys_groupByKey {α κ : Type} [DecidableEq κ] (k : α → κ) (l : List α) :
    ((groupByKey k l).map Prod.fst).Nodup := by
  simpa [groupByKey] using nodup_keys_foldl_addToGroups k l [] (by simp)

theorem mem_foldl_dedup (x : String) :
    ∀ (l acc : List String),
      (x ∈ l.foldl (fun acc y => if y ∈ acc then acc else acc ++ [y]) acc) ↔
        (x ∈ acc ∨ x ∈ l)
  | [], acc => by simp
  | y :: l, acc => by
    simp only [List.foldl_cons]
    rw [mem_foldl_dedup x l]
    by_cases h : y ∈ acc
    · simp only [if_pos h, List.mem_cons]
      constructor
      · rintro (hx | hx)
        · exact Or.inl hx
        · exact Or.inr (Or.inr hx)
      · rintro (hx | hx | hx)
        · exact Or.inl hx
        · exact Or.inl (hx ▸ h)
        · exact Or.inr hx
    · simp only [if_neg h, List.mem_append, List.mem_singleton, List.mem_cons]
      tauto

theorem mem_dedupFirst (x : String) (l : List String) :
    x ∈ dedupFirst l ↔ x ∈ l := by
  simpa [dedupFirst] using mem_foldl_dedup x l []

/-! ## Helper lemmas about the migration runner -/

theorem runPending_ok {σ : Type} :
    ∀ (pending : List (SchemaMigration σ)) (db : DbState σ) (att : List String)
      (db2 : DbState σ) (att2 : List String),
      runPending pending db att = (db2, att2, true) →
      att2 = att ++ pending.map SchemaMigration.name ∧
        db2.recorded = db.recorded ++ pending.map SchemaMigration.name
  | [], db, att, db2, att2 => by
    intro h
    simp only [runPending, Prod.mk.injEq] at h
    obtain ⟨h1, h2, -⟩ := h
    simp [← h1, ← h2]
  | m :: rest, db, att, db2, att2 => by
    intro h
    simp only [runPending] at h
    cases hup : m.up db.schema with
    | none => rw [hup] at h; simp at h
    | some s =>
      rw [hup] at h
      have ih := runPending_ok rest (DbState.mk s (db.recorded ++ [m.name]))
        (att ++ [m.name]) db2 att2 h
      obtain ⟨h1, h2⟩ := ih
      constructor
      · rw [h1]; simp
      · rw [h2]; simp

theorem runPending_fail {σ : Type} :
    ∀ (pending : List (SchemaMigration σ)) (db : DbState σ) (att : List String)
      (db2 : DbState σ) (att2 : List String),
      runPending pending db att = (db2, att2, false) →
      ∃ j m, pending[j]? = some m ∧
        att2 = att ++ (pending.take (j + 1)).map SchemaMigration.name ∧
        db2.recorded = db.recorded ++ (pending.take j).map SchemaMigration.name ∧
        m.up db2.schema = none
  | [], db, att, db2, att2 => by
    intro h
    simp [runPending] at h
  | m :: rest, db, att, db2, att2 => by
    intro h
    simp only [runPending] at h
    cases hup : m.up db.schema with
    | none =>
      rw [hup] at h
      simp only [Prod.mk.injEq] at h
      obtain ⟨h1, h2, -⟩ := h
      refine ⟨0, m, by simp, ?_, ?_, ?_⟩
      · simp [← h2]
      · simp [← h1]
      · rw [← h1]; exact hup
    | some s =>
      rw [hup] at h
      obtain ⟨j, m', hj, h1, h2, h3⟩ :=
        runPending_fail rest (DbState.mk s (db.recorded ++ [m.name])) (att ++ [m.name])
          db2 att2 h
      refine ⟨j + 1, m', ?_, ?_, ?_, h3⟩
      · simpa using hj
      · rw [h1]; simp
      · rw [h2]; simp

theorem runMigrations_ok_spec {σ : Type} (migs : List (SchemaMigration σ))
    (db db2 : DbState σ) (att2 : List String)
    (h : runMigrations migs db = (db2, att2, true)) :
    att2 = (pendingOf migs db).map SchemaMigration.name ∧
      db2.recorded = db.recorded ++ att2 := by
  obtain ⟨h1, h2⟩ := runPending_ok (pendingOf migs db) db [] db2 att2 h
  refine ⟨by simpa using h1, ?_⟩
  rw [h2, h1]
  simp

theorem pendingOf_after_ok {σ : Type} (migs : List (SchemaMigration σ))
    (db db2 : DbState σ) (att2 : List String)
    (h : runMigrations migs db = (db2, att2, true)) :
    pendingOf migs db2 = [] := by
  obtain ⟨h1, h2⟩ := runMigrations_ok_spec migs db db2 att2 h
  rw [pendingOf, List.filter_eq_nil_iff]
  intro m hm
  simp only [Bool.not_eq_true', Bool.not_eq_false, decide_eq_true_eq]
  rw [h2, h1]
  by_cases hr : m.name ∈ db.recorded
  · exact List.mem_append_left _ hr
  · refine List.mem_append_right _ ?_
    refine List.mem_map_of_mem SchemaMigration.name ?_
    rw [pendingOf, List.mem_filter]
    exact ⟨hm, by simpa using hr⟩

theorem nodup_map_not_mem_take {α β : Type} (f : α → β) (l : List α) (j : Nat) (m : α)
    (hn : (l.map f).Nodup) (hj : l[j]? = some m) : ¬ f m ∈ (l.take j).map f := by
  intro hmem
  rw [List.map_take] at hmem
  obtain ⟨i, hi⟩ := List.mem_iff_getElem?.mp hmem
  have hij : i < j := by
    by_contra hij
    rw [List.getElem?_take_eq_none (Nat.le_of_not_lt hij)] at hi
    exact Option.noConfusion hi
  rw [List.getElem?_take_of_lt hij] at hi
  have hjm : (l.map f)[j]? = some (f m) := by
    rw [List.getElem?_map, hj]; rfl
  have hjlen : j < (l.map f).length := by
    by_contra hlen
    rw [List.getElem?_eq_none (Nat.le_of_not_lt hlen)] at hjm
    exact Option.noConfusion hjm
  have hilen : i < (l.map f).length := Nat.lt_trans hij hjlen
  have hpair := (List.pairwise_iff_getElem.mp hn) i j hilen hjlen hij
  rw [List.getElem?_eq_getElem hilen] at hi
  rw [List.getElem?_eq_getElem hjlen] at hjm
  exact hpair (by rw [Option.some_inj.mp hi, Option.some_inj.mp hjm])

theorem filter_not_mem_take_map {α β : Type} [DecidableEq β] (f : α → β) :
    ∀ (l : List α) (j : Nat), (l.map f).Nodup →
      l.filter (fun a => !decide (f a ∈ (l.take j).map f)) = l.drop j := by
  intro l
  induction l with
  | nil => intro j _; simp
  | cons a l ih =>
    intro j h
    cases j with
    | zero =>
      simp only [List.take_zero, List.map_nil, List.drop_zero]
      have hc : List.filter (fun x => !decide (f x ∈ ([] : List β))) (a :: l)
          = List.filter (fun _ => true) (a :: l) :=
        List.filter_congr (fun x _ => by simp)
      rw [hc, List.filter_true]
    | succ j =>
      have hfa : ¬ f a ∈ l.map f := by
        have hcons : (f a :: l.map f).Nodup := by simpa using h
        exact (List.nodup_cons.mp hcons).1
      have htl : (l.map f).Nodup := by
        have hcons : (f a :: l.map f).Nodup := by simpa using h
        exact (List.nodup_cons.mp hcons).2
      simp only [List.take_succ_cons, List.map_cons, List.drop_succ_cons]
      rw [List.filter_cons]
      have hpa : (!decide (f a ∈ f a :: (l.take j).map f)) = false := by simp
      rw [hpa]
      simp only [Bool.false_eq_true, if_false]
      have hc : List.filter (fun x => !decide (f x ∈ f a :: (l.take j).map f)) l
          = List.filter (fun x => !decide (f x ∈ (l.take j).map f)) l := by
        refine List.filter_congr (fun x hx => ?_)
        have hne : f x ≠ f a := by
          intro he
          exact hfa (he ▸ List.mem_map_of_mem f hx)
        simp [List.mem_cons, hne]
      rw [hc]
      exact ih j htl

theorem not_decide_mem_append {a : String} {l1 l2 : List String} :
    (!decide (a ∈ l1 ++ l2)) = (!decide (a ∈ l1) && !decide (a ∈ l2)) := by
  by_cases h1 : a ∈ l1 <;> by_cases h2 : a ∈ l2 <;> simp [h1, h2, List.mem_append]

/-! ## Claim theorems: the Post Organizer -/

theorem seriesGroups_posts_sorted (posts : List Post) :
    ∀ g ∈ buildSeriesGroups posts, g.posts.Pairwise orderAscRel := by
  intro g hg
  simp only [buildSeriesGroups] at hg
  rw [List.mem_insertionSort] at hg
  obtain ⟨gb, hgb, rfl⟩ := List.mem_map.mp hg
  simp only [seriesGroupNode]
  exact List.sorted_insertionSort orderAscRel gb.2

/--
C1 (amended).  Within a series group built by `buildSeriesGroups`, if `p`
appears before `q` then `p.series_order ≤ q.series_order` (a missing order
counting as zero), and conversely if `p.series_order < q.series_order` and
both posts are in the group then `p` appears before `q`.  (The original
biconditional fails when the two orders are equal — see the
counterexample.)
-/
theorem seriesGrouping_order_amended (posts : List Post) (g : SeriesGroup)
    (hg : g ∈ buildSeriesGroups posts) (p q : Post) :
    (appearsBefore g.posts p q → seriesOrderVal p ≤ seriesOrderVal q) ∧
    (p ∈ g.posts → q ∈ g.posts → seriesOrderVal p < seriesOrderVal q →
      appearsBefore g.posts p q) := by
  have hs : g.posts.Pairwise orderAscRel := seriesGroups_posts_sorted posts g hg
  have hget := List.pairwise_iff_get.mp hs
  constructor
  · rintro ⟨i, j, hij, hp, hq⟩
    have h := hget i j hij
    rw [hp, hq] at h
    exact h
  · intro hp hq hlt
    obtain ⟨i, hpi⟩ := List.mem_iff_get.mp hp
    obtain ⟨j, hqj⟩ := List.mem_iff_get.mp hq
    rcases Nat.lt_trichotomy i.1 j.1 with h | h | h
    · exact ⟨i, j, h, hpi, hqj⟩
    · exfalso
      have hij : i = j := Fin.ext h
      subst hij
      rw [hpi] at hqj
      rw [hqj] at hlt
      exact absurd hlt (lt_irrefl _)
    · exfalso
      have hle := hget j i h
      rw [hqj, hpi] at hle
      exact absurd hlt (not_lt.mpr hle)

/--
C1 (counterexample to the claim as stated).  Two posts share series "X" and
both lack a `series_order` (so both count as zero).  The group lists
`cexP1` before `cexP2`; `cexP2.series_order ≤ cexP1.series_order` holds,
yet `cexP2` does not appear before `cexP1`, refuting the "iff".
-/
theorem seriesGrouping_claim_cex :
    buildSeriesGroups cexPosts = [SeriesGroup.mk "X" [cexP1, cexP2]] ∧
    seriesOrderVal cexP2 ≤ seriesOrderVal cexP1 ∧
    cexP2 ≠ cexP1 ∧
    ¬ appearsBefore [cexP1, cexP2] cexP2 cexP1 :=
  ⟨by decide, by decide, by decide, by decide⟩

/-- Witness for `seriesGrouping_order_amended` at the spec's scenario input. -/
theorem seriesGrouping_order_amended_witness :
    SeriesGroup.mk "X" [wSerP2, wSerP1] ∈ buildSeriesGroups wSerPosts ∧
    ((appearsBefore [wSerP2, wSerP1] wSerP2 wSerP1 →
        seriesOrderVal wSerP2 ≤ seriesOrderVal wSerP1) ∧
      (wSerP2 ∈ [wSerP2, wSerP1] → wSerP1 ∈ [wSerP2, wSerP1] →
        seriesOrderVal wSerP2 < seriesOrderVal wSerP1 →
          appearsBefore [wSerP2, wSerP1] wSerP2 wSerP1)) :=
  ⟨by decide,
    seriesGrouping_order_amended wSerPosts (SeriesGroup.mk "X" [wSerP2, wSerP1])
      (by decide) wSerP2 wSerP1⟩

/--
C6.  The tag index's "All" entry shows the total post count, and every
entry of the rendered tag index shows, for its tag, the number of posts
whose tag set contains it (case-sensitively); the indexed tags are exactly
the tags occurring in the collection.
-/
theorem tagIndex_counts (posts : List Post) :
    allCount posts = posts.length ∧
    (∀ t c, (t, c) ∈ tagIndexEntries posts →
      c = posts.countP (fun p => decide (t ∈ postTags p))) ∧
    (∀ t, t ∈ allTags posts ↔ ∃ p ∈ posts, t ∈ postTags p) := by
  refine ⟨rfl, ?_, ?_⟩
  · intro t c h
    simp only [tagIndexEntries] at h
    obtain ⟨t', ht', he⟩ := List.mem_map.mp h
    have h1 : t' = t := congrArg Prod.fst he
    have h2 : tagCount posts t' = c := congrArg Prod.snd he
    subst h1
    rw [← h2, tagCount, List.countP_eq_length_filter]
    congr 1
    refine List.filter_congr (fun p _ => ?_)
    simp [List.contains]
  · intro t
    simp only [allTags]
    rw [List.mem_insertionSort, mem_dedupFirst, List.mem_flatMap]

/-- Witness for `tagIndex_counts`: the entry for tag "b" counts both posts. -/
theorem tagIndex_counts_witness :
    ("b", 2) ∈ tagIndexEntries wTagPosts ∧
      2 = wTagPosts.countP (fun p => decide ("b" ∈ postTags p)) :=
  ⟨by decide, (tagIndex_counts wTagPosts).2.1 "b" 2 (by decide)⟩

/--
C7.  The date tree is a lossless partition: the posts collected over all
year/month buckets are a permutation of the input collection (no post
dropped, none duplicated), and the empty collection yields the empty tree.
-/
theorem dateTree_lossless (posts : List Post) :
    ((buildDateTree posts).flatMap (fun y => y.months.flatMap DateTreeMonth.posts)).Perm
        posts ∧
    buildDateTree [] = [] := by
  refine ⟨?_, rfl⟩
  simp only [buildDateTree]
  refine ((List.perm_insertionSort yearDescRel _).flatMap_right _).trans ?_
  rw [List.flatMap_map]
  refine (List.Perm.flatMap_left _ (fun yg _ => ?_)).trans
    (flatMap_snd_groupByKey postYear posts)
  simp only [yearNode]
  refine ((List.perm_insertionSort monthDescRel _).flatMap_right _).trans ?_
  rw [List.flatMap_map]
  refine (List.Perm.flatMap_left _ (fun mg _ => ?_)).trans
    (flatMap_snd_groupByKey postMonth yg.2)
  simp only [monthNode]
  exact List.perm_insertionSort timeDescRel mg.2

/--
C8.  In the date tree, years are strictly descending, month buckets within
a year are strictly descending by month number, and posts within a month
bucket are sorted by `created_at` descending (missing `created_at` counted
as the epoch, via `postTime`).
-/
theorem dateTree_sorted (posts : List Post) :
    List.Pairwise (fun a b : DateTreeYear => b.year < a.year) (buildDateTree posts) ∧
    (∀ y ∈ buildDateTree posts,
      List.Pairwise (fun a b : DateTreeMonth => b.month < a.month) y.months) ∧
    (∀ y ∈ buildDateTree posts, ∀ m ∈ y.months,
      List.Pairwise (fun a b : Post => postTime b ≤ postTime a) m.posts) := by
  refine ⟨?_, ?_, ?_⟩
  · simp only [buildDateTree]
    have hle : List.Pairwise yearDescRel
        (List.insertionSort yearDescRel ((groupByKey postYear posts).map yearNode)) :=
      List.sorted_insertionSort yearDescRel _
    have hnodup : ((List.insertionSort yearDescRel
        ((groupByKey postYear posts).map yearNode)).map DateTreeYear.year).Nodup := by
      have hperm := (List.perm_insertionSort yearDescRel
        ((groupByKey postYear posts).map yearNode)).map DateTreeYear.year
      rw [hperm.nodup_iff, List.map_map]
      exact nodup_keys_groupByKey postYear posts
    have hne : List.Pairwise (fun a b : DateTreeYear => a.year ≠ b.year)
        (List.insertionSort yearDescRel ((groupByKey postYear posts).map yearNode)) :=
      List.pairwise_map.mp hnodup
    exact (hle.and hne).imp (fun h => lt_of_le_of_ne h.1 (Ne.symm h.2))
  · intro y hy
    simp only [buildDateTree] at hy
    rw [List.mem_insertionSort] at hy
    obtain ⟨yg, hyg, rfl⟩ := List.mem_map.mp hy
    simp only [yearNode]
    have hle : List.Pairwise monthDescRel
        (List.insertionSort monthDescRel ((groupByKey postMonth yg.2).map monthNode)) :=
      List.sorted_insertionSort monthDescRel _
    have hnodup : ((List.insertionSort monthDescRel
        ((groupByKey postMonth yg.2).map monthNode)).map DateTreeMonth.month).Nodup := by
      have hperm := (List.perm_insertionSort monthDescRel
        ((groupByKey postMonth yg.2).map monthNode)).map DateTreeMonth.month
      rw [hperm.nodup_iff, List.map_map]
      exact nodup_keys_groupByKey postMonth yg.2
    have hne : List.Pairwise (fun a b : DateTreeMonth => a.month ≠ b.month)
        (List.insertionSort monthDescRel ((groupByKey postMonth yg.2).map monthNode)) :=
      List.pairwise_map.mp hnodup
    exact (hle.and hne).imp (fun h => lt_of_le_of_ne h.1 (Ne.symm h.2))
  · intro y hy m hm
    simp only [buildDateTree] at hy
    rw [List.mem_insertionSort] at hy
    obtain ⟨yg, hyg, rfl⟩ := List.mem_map.mp hy
    simp only [yearNode] at hm
    rw [List.mem_insertionSort] at hm
    obtain ⟨mg, hmg, rfl⟩ := List.mem_map.mp hm
    simp only [monthNode]
    exact List.sorted_insertionSort timeDescRel mg.2

/-- Witness for `dateTree_sorted` at the spec's scenario input. -/
theorem dateTree_sorted_witness :
    List.Pairwise (fun a b : Post => postTime b ≤ postTime a) [wSerP2] :=
  (dateTree_sorted wSerPosts).2.2
    (DateTreeYear.mk 2024 [DateTreeMonth.mk 1 "February" [wSerP2],
      DateTreeMonth.mk 0 "January" [wSerP1]]) (by decide)
    (DateTreeMonth.mk 1 "February" [wSerP2]) (by decide)

/--
C9.  The primary listing is the tag-filtered collection sorted by
`created_at` descending; the featured posts are its first three entries,
the additional posts the rest, and together they are exactly the sorted
filtered collection.
-/
theorem primaryListing_spec (posts : List Post) (selectedTag : Option String) :
    featuredPosts posts selectedTag ++ olderPosts posts selectedTag
        = sortedPosts posts selectedTag ∧
    (sortedPosts posts selectedTag).Perm (filteredPosts posts selectedTag) ∧
    List.Pairwise (fun a b : Post => postTime b ≤ postTime a)
      (sortedPosts posts selectedTag) ∧
    featuredPosts posts selectedTag = (sortedPosts posts selectedTag).take 3 :=
  ⟨List.take_append_drop 3 _, List.perm_insertionSort timeDescRel _,
    List.sorted_insertionSort timeDescRel _, rfl⟩

/-! ## Claim theorems: the migration runner -/

/--
C3.  If a run of the migration runner completes successfully, a second run
against the resulting database is a no-op: it returns the same database
(same schema, same recorded names), executes no actions and inserts no
tracking rows.
-/
theorem runMigrations_idempotent {σ : Type} (migs : List (SchemaMigration σ))
    (db db1 : DbState σ) (att : List String)
    (h : runMigrations migs db = (db1, att, true)) :
    runMigrations migs db1 = (db1, [], true) := by
  have hp := pendingOf_after_ok migs db db1 att h
  rw [runMigrations, hp]
  rfl

/-- Witness for `runMigrations_idempotent` on three logging migrations. -/
theorem runMigrations_idempotent_witness :
    runMigrations [migA, migB, migC] dbEmpty =
        (DbState.mk ["A", "B", "C"] ["A", "B", "C"], ["A", "B", "C"], true) ∧
    runMigrations [migA, migB, migC] (DbState.mk ["A", "B", "C"] ["A", "B", "C"]) =
        (DbState.mk ["A", "B", "C"] ["A", "B", "C"], [], true) :=
  ⟨rfl, runMigrations_idempotent [migA, migB, migC] dbEmpty
    (DbState.mk ["A", "B", "C"] ["A", "B", "C"]) ["A", "B", "C"] rfl⟩

/--
C4.  A successful run executes exactly the declared migrations whose name
is not recorded, in their declared relative order (the executed names are
the pending names, a sublist of the declared name sequence), records them,
and never touches a migration whose name was already recorded.
-/
theorem runMigrations_pending_order {σ : Type} (migs : List (SchemaMigration σ))
    (db db2 : DbState σ) (att2 : List String)
    (h : runMigrations migs db = (db2, att2, true)) :
    att2 = (pendingOf migs db).map SchemaMigration.name ∧
    db2.recorded = db.recorded ++ att2 ∧
    (∀ n ∈ att2, ¬ n ∈ db.recorded) ∧
    List.Sublist att2 (migs.map SchemaMigration.name) := by
  obtain ⟨h1, h2⟩ := runMigrations_ok_spec migs db db2 att2 h
  refine ⟨h1, h2, ?_, ?_⟩
  · intro n hn
    rw [h1] at hn
    obtain ⟨m, hm, rfl⟩ := List.mem_map.mp hn
    rw [pendingOf, List.mem_filter] at hm
    simpa using hm.2
  · rw [h1, pendingOf]
    exact (List.filter_sublist migs).map SchemaMigration.name

/--
Witness for `runMigrations_pending_order`: with A, B, C declared in that
order and only A recorded, the run executes B then C and skips A.
-/
theorem runMigrations_pending_order_witness :
    runMigrations [migA, migB, migC] dbRecA =
        (DbState.mk ["B", "C"] ["A", "B", "C"], ["B", "C"], true) ∧
    ((["B", "C"] : List String) =
        (pendingOf [migA, migB, migC] dbRecA).map SchemaMigration.name ∧
      (DbState.mk ["B", "C"] ["A", "B", "C"] : DbState (List String)).recorded
          = dbRecA.recorded ++ ["B", "C"] ∧
      (∀ n ∈ (["B", "C"] : List String), ¬ n ∈ dbRecA.recorded) ∧
      List.Sublist (["B", "C"] : List String)
        ([migA, migB, migC].map SchemaMigration.name)) :=
  ⟨rfl, runMigrations_pending_order [migA, migB, migC] dbRecA
    (DbState.mk ["B", "C"] ["A", "B", "C"]) ["B", "C"] rfl⟩

/--
C2.  If a run fails, it stops at the first failing pending migration: the
migrations before it in the pending sequence were executed and recorded,
the failing migration's name was attempted but not recorded, nothing after
it was attempted, the failure is reported to the caller (`ok = false`), and
a later successful run executes exactly the declared migrations from the
first unrecorded name onward.
-/
theorem runMigrations_failure_semantics {σ : Type} (migs : List (SchemaMigration σ))
    (db db2 : DbState σ) (att2 : List String)
    (hnd : (migs.map SchemaMigration.name).Nodup)
    (h : runMigrations migs db = (db2, att2, false)) :
    ∃ j m, (pendingOf migs db)[j]? = some m ∧
      att2 = ((pendingOf migs db).take (j + 1)).map SchemaMigration.name ∧
      db2.recorded = db.recorded ++ ((pendingOf migs db).take j).map SchemaMigration.name ∧
      ¬ m.name ∈ db2.recorded ∧
      m.up db2.schema = none ∧
      pendingOf migs db2 = (pendingOf migs db).drop j ∧
      (∀ db3 att3, runMigrations migs db2 = (db3, att3, true) →
        att3 = ((pendingOf migs db).drop j).map SchemaMigration.name) := by
  obtain ⟨j, m, hj, h1, h2, h3⟩ := runPending_fail (pendingOf migs db) db [] db2 att2 h
  have hnp : ((pendingOf migs db).map SchemaMigration.name).Nodup := by
    refine List.Nodup.sublist ?_ hnd
    exact (List.filter_sublist migs).map SchemaMigration.name
  have hmem : m ∈ pendingOf migs db := List.getElem?_mem hj
  have hmnotrec : ¬ m.name ∈ db.recorded := by
    rw [pendingOf, List.mem_filter] at hmem
    simpa using hmem.2
  have hnottake : ¬ m.name ∈ ((pendingOf migs db).take j).map SchemaMigration.name :=
    nodup_map_not_mem_take SchemaMigration.name (pendingOf migs db) j m hnp hj
  have hnotrec2 : ¬ m.name ∈ db2.recorded := by
    rw [h2]
    intro hc
    rcases List.mem_append.mp hc with hc | hc
    · exact hmnotrec hc
    · exact hnottake hc
  have hresume : pendingOf migs db2 = (pendingOf migs db).drop j := by
    have hT : pendingOf migs db2
        = List.filter
            (fun x => !decide
              (x.name ∈ ((pendingOf migs db).take j).map SchemaMigration.name))
            (pendingOf migs db) := by
      rw [pendingOf, pendingOf, List.filter_filter]
      refine List.filter_congr (fun x _ => ?_)
      rw [h2, not_decide_mem_append]
      exact Bool.and_comm _ _
    rw [hT]
    exact filter_not_mem_take_map SchemaMigration.name (pendingOf migs db) j hnp
  refine ⟨j, m, hj, by simpa using h1, h2, hnotrec2, h3, hresume, ?_⟩
  intro db3 att3 hrun
  obtain ⟨ha, -⟩ := runMigrations_ok_spec migs db2 db3 att3 hrun
  rw [ha, hresume]

/--
Witness for `runMigrations_failure_semantics`: A succeeds, B fails, C is
never attempted; B's name is not recorded.
-/
theorem runMigrations_failure_semantics_witness :
    ([migA, migBFail, migC].map SchemaMigration.name).Nodup ∧
    runMigrations [migA, migBFail, migC] dbEmpty =
        (DbState.mk ["A"] ["A"], ["A", "B"], false) ∧
    (∃ j m, (pendingOf [migA, migBFail, migC] dbEmpty)[j]? = some m ∧
      (["A", "B"] : List String) =
          ((pendingOf [migA, migBFail, migC] dbEmpty).take (j + 1)).map
            SchemaMigration.name ∧
      (DbState.mk ["A"] ["A"] : DbState (List String)).recorded = dbEmpty.recorded ++
          ((pendingOf [migA, migBFail, migC] dbEmpty).take j).map SchemaMigration.name ∧
      ¬ m.name ∈ (DbState.mk ["A"] ["A"] : DbState (List String)).recorded ∧
      m.up (DbState.mk ["A"] ["A"] : DbState (List String)).schema = none ∧
      pendingOf [migA, migBFail, migC] (DbState.mk ["A"] ["A"]) =
          (pendingOf [migA, migBFail, migC] dbEmpty).drop j ∧
      (∀ db3 att3, runMigrations [migA, migBFail, migC] (DbState.mk ["A"] ["A"]) =
            (db3, att3, true) →
        att3 = ((pendingOf [migA, migBFail, migC] dbEmpty).drop j).map
            SchemaMigration.name)) :=
  ⟨by decide, rfl,
    runMigrations_failure_semantics [migA, migBFail, migC] dbEmpty
      (DbState.mk ["A"] ["A"]) ["A", "B"] (by decide) rfl⟩

/-! ## Claim theorems: the post routes -/

/--
C5.  Creating a post whose (truthy) slug is already held by a stored post
yields the 409 conflict response and leaves the stored collection — in
particular the existing post — unchanged.
-/
theorem createPost_duplicate_slug_conflict (store : Store) (now : Nat) (body : PostBody)
    (s : String) (p0 : StoredPost)
    (ht : falsyStr body.title = false) (hc : falsyStr body.content = false)
    (hs : body.slug = some s) (hsne : s ≠ "")
    (hp0 : p0 ∈ store.posts) (hslug : p0.slug = s) :
    createPostHandler store now body = (store, ApiResponse.conflict) := by
  have hfs : falsyStr (some s) = false := by simp [falsyStr, hsne]
  have hany : store.posts.any (fun p => p.slug == s) = true :=
    List.any_eq_true.mpr ⟨p0, hp0, by simp [hslug]⟩
  simp [createPostHandler, ht, hc, hs, hfs, hany]

/-- Witness for `createPost_duplicate_slug_conflict` on slug "hello". -/
theorem createPost_duplicate_slug_conflict_witness :
    falsyStr wBodyDup.title = false ∧ falsyStr wBodyDup.content = false ∧
    wBodyDup.slug = some "hello" ∧ ("hello" : String) ≠ "" ∧
    wStored1 ∈ wStore.posts ∧ wStored1.slug = "hello" ∧
    createPostHandler wStore 200 wBodyDup = (wStore, ApiResponse.conflict) :=
  ⟨rfl, rfl, rfl, by decide, by decide, rfl,
    createPost_duplicate_slug_conflict wStore 200 wBodyDup "hello" wStored1 rfl rfl rfl
      (by decide) (by decide) rfl⟩

/--
C10.  On a successful `PUT /api/posts/:id`, every field that is absent from
the body (or null) keeps its stored value, an optional field can never be
cleared to null by any body, and `updated_at` is set to the current time.
-/
theorem updatePost_partial_fields (store : Store) (now id : Nat) (body : PostBody)
    (old : StoredPost)
    (hf : store.posts.find? (fun p => p.id == id) = some old)
    (hnc : store.posts.any
        (fun p => p.id != id && p.slug == (coalescePost old body now).slug) = false) :
    updatePostHandler store now id body =
      (Store.mk
        (store.posts.map (fun p => if p.id == id then coalescePost old body now else p))
        store.nextId, ApiResponse.okPost (coalescePost old body now)) ∧
    (body.title = none → (coalescePost old body now).title = old.title) ∧
    (body.slug = none → (coalescePost old body now).slug = old.slug) ∧
    (body.content = none → (coalescePost old body now).content = old.content) ∧
    (body.excerpt = none → (coalescePost old body now).excerpt = old.excerpt) ∧
    (body.category = none → (coalescePost old body now).category = old.category) ∧
    (body.tags = none → (coalescePost old body now).tags = old.tags) ∧
    (body.published = none → (coalescePost old body now).published = old.published) ∧
    ((coalescePost old body now).excerpt = none → old.excerpt = none) ∧
    ((coalescePost old body now).category = none → old.category = none) ∧
    ((coalescePost old body now).tags = none → old.tags = none) ∧
    (coalescePost old body now).updated_at = now := by
  refine ⟨?_, ?_, ?_, ?_, ?_, ?_, ?_, ?_, ?_, ?_, ?_, rfl⟩
  · simp [updatePostHandler, hf, hnc]
  · intro h; simp [coalescePost, h]
  · intro h; simp [coalescePost, h]
  · intro h; simp [coalescePost, h]
  · intro h; simp [coalescePost, h, Option.orElse]
  · intro h; simp [coalescePost, h, Option.orElse]
  · intro h; simp [coalescePost, h, Option.orElse]
  · intro h; simp [coalescePost, h]
  · intro h
    cases hbe : body.excerpt with
    | none => simpa [coalescePost, hbe, Option.orElse] using h
    | some v => rw [coalescePost] at h; simp [hbe, Option.orElse] at h
  · intro h
    cases hbe : body.category with
    | none => simpa [coalescePost, hbe, Option.orElse] using h
    | some v => rw [coalescePost] at h; simp [hbe, Option.orElse] at h
  · intro h
    cases hbe : body.tags with
    | none => simpa [coalescePost, hbe, Option.orElse] using h
    | some v => rw [coalescePost] at h; simp [hbe, Option.orElse] at h

/-- Witness for `updatePost_partial_fields`: a body setting only `title` and
`published` keeps the stored slug and stamps `updated_at`. -/
theorem updatePost_partial_fields_witness :
    updatePostHandler wStore 500 1 wBodyPatch =
      (Store.mk [coalescePost wStored1 wBodyPatch 500] 2,
        ApiResponse.okPost (coalescePost wStored1 wBodyPatch 500)) ∧
    (coalescePost wStored1 wBodyPatch 500).updated_at = 500 ∧
    (wBodyPatch.slug = none → (coalescePost wStored1 wBodyPatch 500).slug = wStored1.slug) := by
  obtain ⟨h1, -, hslug, -, -, -, -, -, -, -, -, hupd⟩ :=
    updatePost_partial_fields wStore 500 1 wBodyPatch wStored1 rfl (by decide)
  exact ⟨h1, hupd, hslug⟩

end Shuckle
